import Mathlib

/-!
Verification development for the GetYourGuide booking e-mail reconciliation
script (`GYG.py`).  The decision core is embedded shallowly:

* a Mongo/JSON document is a finite map from the script's field names to an
  optional value (`Doc`); a key present with Python `None` and an absent key
  behave identically in every `dict.get`/`is None` check the script performs,
  so the two are conflated;
* `smart_merge`, `build_doc` and the decision section of `main`
  (cancellation / missing-reference / merge-vs-insert) are transcribed
  directly; the Mongo collection is a list of documents so that duplicate
  inserts of the same booking reference stay observable;
* the post-`json.loads` cleanup of `parse_with_g4f` and
  `parse_with_huggingface` (upper-casing the reference, coercing
  `totalPassengers`) is embedded as `normalize_g4f` / `normalize_hf`,
  returning `none` where the Python exception handler makes the whole parse
  fail;
* `extract_greeting_name` is embedded with a direct deterministic matcher for
  its two regular expressions (the alternatives and sub-patterns of those
  regexes never overlap on a common prefix, so Python's backtracking search
  is equivalent to the first-match recursion used here).
-/

namespace GYG

/-- The field names (dictionary keys) that occur in the script's documents.
`mongoId` stands for the Mongo key `_id`. -/
inductive Field where
  | booking_reference
  | name
  | phoneNumber
  | tourDate
  | tourTime
  | totalPassengers
  | tour
  | vehicleType
  | address
  | is_cancellation
  | is_amendment
  | specialRequirements
  | platform
  | createdAt
  | updatedAt
  | mongoId
deriving DecidableEq, Repr

/-- A JSON/Mongo value as used by the script: string, integer, boolean, or a
datetime instant (modelled as a `Nat` tick).  Python `==` between a `bool`
and an `int` coerces (`True == 1`), but the script only ever compares the
flag fields, which are excluded from every comparison by the skip list, so
constructor-wise equality is faithful for every comparison actually made. -/
inductive Val where
  | s (v : String)
  | i (v : Int)
  | b (v : Bool)
  | t (v : Nat)
deriving DecidableEq, Repr

/-- A document: a (total) assignment of an optional value to every field.
`none` stands both for an absent key and for a key bound to Python `None`;
the script never distinguishes the two (it only uses `dict.get` and
`is None` checks, and `dict.items()` entries bound to `None` are skipped by
the merge loop exactly like absent keys). -/
def Doc : Type := Field → Option Val

/-- Dictionary assignment `d[f] = v` (with `v = none` for `d[f] = None`). -/
def setF (d : Doc) (f : Field) (v : Option Val) : Doc :=
  fun g => if g = f then v else d g

/-- Python truthiness of a value (`if new_value:` etc.). -/
def pyTruthy : Val → Bool
  | Val.s v => decide (v ≠ "")
  | Val.i v => decide (v ≠ 0)
  | Val.b v => v
  | Val.t _ => true

/-- Python truthiness of `dict.get(k)`: `None` (or absent) is falsy. -/
def truthyO : Option Val → Bool
  | none => false
  | some v => pyTruthy v

/-- Python `new_value == existing_booking.get(field)` for a non-`None`
`new_value`: comparison with `None` (missing key) is `False`. -/
def pyEqVO (v : Val) : Option Val → Bool
  | none => false
  | some w => decide (v = w)

/-- Python `new_data.get('name') == greeting_name` where `greeting_name` is
the `Optional[str]` returned by `extract_greeting_name` (`None == None` is
`True`). -/
def greetEq : Option Val → Option String → Bool
  | none, none => true
  | some v, some s => decide (v = Val.s s)
  | none, some _ => false
  | some _, none => false

/-- Python whitespace class for `str.split()` / `\s` (ASCII part; the
script's inputs in every claim are ASCII). -/
def pyIsSpace (c : Char) : Bool :=
  c.toNat = 32 || c.toNat = 9 || c.toNat = 10 || c.toNat = 13 ||
    c.toNat = 11 || c.toNat = 12

/-- Token counter for Python `len(s.split())`: counts the maximal runs of
non-whitespace characters.  The boolean argument records whether the
previous character belonged to a token. -/
def countTokAux : List Char → Bool → Nat
  | [], _ => 0
  | c :: t, inTok =>
    if pyIsSpace c then countTokAux t false
    else (if inTok then 0 else 1) + countTokAux t true

/-- Python `len(s.split())`. -/
def countTokens (l : List Char) : Nat := countTokAux l false

/-- `len(new_value.split())` as used on the candidate `name`.  On a
non-string value Python would raise `AttributeError`, aborting the whole
message (no document is written); returning `0` here likewise rejects the
value, so every reachable merge outcome agrees with the script. -/
def numTokens : Val → Nat
  | Val.s v => countTokens v.data
  | _ => 0

/-- The metadata keys skipped by the merge loop (`GYG.py` line 291). -/
def skipFields : List Field :=
  [Field.mongoId, Field.createdAt, Field.updatedAt, Field.platform,
   Field.specialRequirements, Field.is_cancellation, Field.is_amendment]

/-- The protected fields (`GYG.py` line 275). -/
def protectedFields : List Field := [Field.name, Field.phoneNumber]

/-- Every field, the iteration domain standing for `new_data.items()`:
fields absent from the Python dict are `none` here and are skipped by the
loop body exactly as non-iterated keys are. -/
def allFields : List Field :=
  [Field.booking_reference, Field.name, Field.phoneNumber, Field.tourDate,
   Field.tourTime, Field.totalPassengers, Field.tour, Field.vehicleType,
   Field.address, Field.is_cancellation, Field.is_amendment,
   Field.specialRequirements, Field.platform, Field.createdAt,
   Field.updatedAt, Field.mongoId]

/-- One iteration of the `smart_merge` field loop (`GYG.py` lines 289-312).
`st` is the pair (merged document so far, updated field list so far). -/
def smartMergeStep (existing_booking new_data : Doc)
    (st : Doc × List Field) (field : Field) : Doc × List Field :=
  if field ∈ skipFields then st
  else
    match new_data field with
    | none => st
    | some newValue =>
      if newValue = Val.s "" then st
      else
        if field ∈ protectedFields then
          if pyTruthy newValue && !(pyEqVO newValue (existing_booking field)) then
            if field = Field.name ∧ numTokens newValue < 2 then st
            else (setF st.1 field (some newValue), st.2 ++ [field])
          else st
        else
          if !(pyEqVO newValue (existing_booking field)) then
            (setF st.1 field (some newValue), st.2 ++ [field])
          else st

/-- Whether the loop body accepts `field` (appends it to `updated_fields`);
depends only on the two documents and the field, not on the accumulator. -/
def accepts (existing_booking new_data : Doc) (field : Field) : Bool :=
  if field ∈ skipFields then false
  else
    match new_data field with
    | none => false
    | some newValue =>
      if newValue = Val.s "" then false
      else
        if field ∈ protectedFields then
          if pyTruthy newValue && !(pyEqVO newValue (existing_booking field)) then
            if field = Field.name ∧ numTokens newValue < 2 then false
            else true
          else false
        else !(pyEqVO newValue (existing_booking field))

/-- The greeting filter at the top of `smart_merge` (lines 281-283):
`if new_data.get('name') == greeting_name: new_data['name'] = None`. -/
def filterGreet (new_data : Doc) (greeting_name : Option String) : Doc :=
  if greetEq (new_data Field.name) greeting_name then
    setF new_data Field.name none
  else new_data

/-- `smart_merge(existing_booking, new_data, greeting_name)`
(`GYG.py` lines 271-317); `now` is the instant of `datetime.now(UTC)`. -/
def smart_merge (existing_booking new_data : Doc)
    (greeting_name : Option String) (now : Nat) : Doc × List Field :=
  let nd := filterGreet new_data greeting_name
  let r := allFields.foldl (smartMergeStep existing_booking nd)
    (existing_booking, [])
  (setF r.1 Field.updatedAt (some (Val.t now)), r.2)

/-- `build_doc(data)` (`GYG.py` lines 320-336).  `data["booking_reference"]`
would raise for a missing key; `main` guards the call with a truthiness
check, so the optional value is carried through directly. -/
def build_doc (data : Doc) (now : Nat) : Doc := fun f =>
  match f with
  | Field.name => data Field.name
  | Field.vehicleType =>
      if truthyO (data Field.vehicleType) then data Field.vehicleType
      else some (Val.s "Unknown")
  | Field.address => data Field.address
  | Field.phoneNumber => data Field.phoneNumber
  | Field.tour => data Field.tour
  | Field.tourDate => data Field.tourDate
  | Field.tourTime => data Field.tourTime
  | Field.totalPassengers => data Field.totalPassengers
  | Field.specialRequirements => some (Val.s "No")
  | Field.booking_reference => data Field.booking_reference
  | Field.platform => some (Val.s "GYG")
  | Field.updatedAt => some (Val.t now)
  | _ => none

/-- Does a stored document match the Mongo filter
`{"booking_reference": ref}`? -/
def refMatches (ref : Val) (d : Doc) : Bool :=
  decide (d Field.booking_reference = some ref)

/-- `collection.find_one({"booking_reference": ref})`: first match in
natural (insertion) order. -/
def find_one (ref : Val) : List Doc → Option Doc
  | [] => none
  | d :: t => if refMatches ref d then some d else find_one ref t

/-- `collection.delete_one({"booking_reference": ref})`: removes the first
match. -/
def deleteFirst (ref : Val) : List Doc → List Doc
  | [] => []
  | d :: t => if refMatches ref d then t else d :: deleteFirst ref t

/-- Mongo `$set` with document `m` applied to stored document `d`. -/
def setAll (d m : Doc) : Doc := fun f =>
  match m f with
  | some v => some v
  | none => d f

/-- `collection.update_one({"booking_reference": ref}, {"$set": m})`:
rewrites the first match. -/
def updateFirst (ref : Val) (m : Doc) : List Doc → List Doc
  | [] => []
  | d :: t => if refMatches ref d then setAll d m :: t else d :: updateFirst ref m t

/-- The outcome of one message in `main` after a successful parse
(`GYG.py` lines 408-497). -/
inductive Decision where
  | cancelDelete (existing : Doc)
  | cancelUnmatched (ref : Val)
  | cancelNoRef
  | skipNoRef
  | update (merged : Doc) (changed : List Field)
  | noopDuplicate
  | create (doc : Doc)

/-- Is the decision an insert of a new document? -/
def isCreate : Decision → Bool
  | Decision.create _ => true
  | _ => false

/-- The decision section of `main` for one parsed message
(`GYG.py` lines 408-497): cancellation handling, reference validation, the
merge-vs-insert gate at line 431, and the resulting store mutation.
Returns the store after the message together with the decision taken. -/
def processParsed (store : List Doc) (parsed : Doc) (is_amendment : Bool)
    (greeting_name : Option String) (now : Nat) : List Doc × Decision :=
  if truthyO (parsed Field.is_cancellation) then
    match parsed Field.booking_reference with
    | some booking_ref =>
      if pyTruthy booking_ref then
        match find_one booking_ref store with
        | some existing =>
            (deleteFirst booking_ref store, Decision.cancelDelete existing)
        | none => (store, Decision.cancelUnmatched booking_ref)
      else (store, Decision.cancelNoRef)
    | none => (store, Decision.cancelNoRef)
  else
    match parsed Field.booking_reference with
    | some booking_ref =>
      if pyTruthy booking_ref then
        match find_one booking_ref store with
        | some existing_booking =>
          if is_amendment || (parsed Field.name).isNone
              || (parsed Field.phoneNumber).isNone then
            if (smart_merge existing_booking parsed greeting_name now).2.isEmpty then
              (store, Decision.noopDuplicate)
            else
              (updateFirst booking_ref
                 (smart_merge existing_booking parsed greeting_name now).1 store,
               Decision.update
                 (smart_merge existing_booking parsed greeting_name now).1
                 (smart_merge existing_booking parsed greeting_name now).2)
          else
            (store ++ [setF (build_doc parsed now) Field.createdAt
               (some (Val.t now))],
             Decision.create (setF (build_doc parsed now) Field.createdAt
               (some (Val.t now))))
        | none =>
          (store ++ [setF (build_doc parsed now) Field.createdAt
             (some (Val.t now))],
           Decision.create (setF (build_doc parsed now) Field.createdAt
             (some (Val.t now))))
      else (store, Decision.skipNoRef)
    | none => (store, Decision.skipNoRef)

/-- ASCII decimal digit test for `int(str)`. -/
def isDigitC (c : Char) : Bool := 48 ≤ c.toNat && c.toNat ≤ 57

/-- Python `str.strip()` on a character list (ASCII whitespace). -/
def pyStrip (l : List Char) : List Char :=
  ((l.dropWhile pyIsSpace).reverse.dropWhile pyIsSpace).reverse

/-- Digit-string value: `some n` iff the list is a nonempty run of ASCII
digits. -/
def digitsToNat (l : List Char) : Option Nat :=
  if l.isEmpty then none
  else
    l.foldl
      (fun acc c =>
        match acc with
        | none => none
        | some a => if isDigitC c then some (a * 10 + (c.toNat - 48)) else none)
      (some 0)

/-- Python `int(s)` on a string: optional surrounding whitespace, optional
sign, nonempty digit run; anything else raises `ValueError` (`none` here).
Python additionally accepts underscores between digits and non-ASCII
digits; no claim depends on those inputs. -/
def pyStrToInt (s : String) : Option Int :=
  match pyStrip s.data with
  | '+' :: rest => (digitsToNat rest).map Int.ofNat
  | '-' :: rest => (digitsToNat rest).map (fun n => -(Int.ofNat n))
  | other => (digitsToNat other).map Int.ofNat

/-- Python `int(x)` on a JSON value: ints pass through, bools coerce, a
string is parsed, a datetime raises (`none`). -/
def pyInt : Val → Option Int
  | Val.i n => some n
  | Val.b b => some (if b then 1 else 0)
  | Val.s s => pyStrToInt s
  | Val.t _ => none

/-- Python `str.upper()` (ASCII; claims use ASCII references only). -/
def pyUpperStr (s : String) : String := String.mk (s.data.map Char.toUpper)

/-- The `booking_reference` cleanup shared by both parsers
(`GYG.py` lines 164-165 and 237-238):
`if parsed.get("booking_reference"): parsed["booking_reference"] = parsed["booking_reference"].upper()`.
Calling `.upper()` on a truthy non-string raises; the surrounding handler
then makes the whole parse fail, hence `none`. -/
def cleanRef (parsed : Doc) : Option Doc :=
  if truthyO (parsed Field.booking_reference) then
    match parsed Field.booking_reference with
    | some (Val.s s) =>
        some (setF parsed Field.booking_reference (some (Val.s (pyUpperStr s))))
    | _ => none
  else some parsed

/-- The post-`json.loads` cleanup of `parse_with_g4f`
(`GYG.py` lines 164-172): reference upper-cased, and `totalPassengers`
coerced with `try: int(...) except: parsed["totalPassengers"] = None` —
a failed coercion yields an absent field, not a failed parse. -/
def normalize_g4f (parsed : Doc) : Option Doc :=
  match cleanRef parsed with
  | none => none
  | some p =>
    if truthyO (p Field.totalPassengers) then
      match p Field.totalPassengers with
      | some v =>
        match pyInt v with
        | some n => some (setF p Field.totalPassengers (some (Val.i n)))
        | none => some (setF p Field.totalPassengers none)
      | none => some p
    else some p

/-- The post-`json.loads` cleanup of `parse_with_huggingface`
(`GYG.py` lines 237-240): same reference cleanup, but
`parsed["totalPassengers"] = int(parsed["totalPassengers"])` has no inner
handler, so a coercion failure propagates to the function's outer
`except` and the whole parse returns `None`. -/
def normalize_hf (parsed : Doc) : Option Doc :=
  match cleanRef parsed with
  | none => none
  | some p =>
    if truthyO (p Field.totalPassengers) then
      match p Field.totalPassengers with
      | some v =>
        match pyInt v with
        | some n => some (setF p Field.totalPassengers (some (Val.i n)))
        | none => none
      | none => some p
    else some p

/-- Codepoint test for the regex class `[A-Z]`. -/
def isUpperAZ (c : Char) : Bool := 65 ≤ c.toNat && c.toNat ≤ 90

/-- Codepoint test for the regex class `[a-z]`. -/
def isLowerAZ (c : Char) : Bool := 97 ≤ c.toNat && c.toNat ≤ 122

/-- Match `[A-Z][a-z]+` greedily at the head of the input, returning the
matched word and the remaining input. -/
def matchWord : List Char → Option (List Char × List Char)
  | [] => none
  | c :: t =>
    if isUpperAZ c then
      if (t.takeWhile isLowerAZ).isEmpty then none
      else some (c :: t.takeWhile isLowerAZ, t.dropWhile isLowerAZ)
    else none

/-- Match `\s+` greedily at the head of the input. -/
def matchSpaces1 (l : List Char) : Option (List Char × List Char) :=
  if (l.takeWhile pyIsSpace).isEmpty then none
  else some (l.takeWhile pyIsSpace, l.dropWhile pyIsSpace)

/-- Match the capture group `([A-Z][a-z]+(?:\s+[A-Z][a-z]+)?)` at the head
of the input, returning the captured text.  The greedy sub-matches need no
backtracking: `[a-z]`, `\s` and `[A-Z]` are pairwise disjoint classes. -/
def matchCap (l : List Char) : Option (List Char) :=
  match matchWord l with
  | none => none
  | some (w1, r1) =>
    match matchSpaces1 r1 with
    | none => some w1
    | some (ws, r2) =>
      match matchWord r2 with
      | none => some w1
      | some (w2, _) => some (w1 ++ ws ++ w2)

/-- Match `\s+` followed by the capture group (the part of both greeting
patterns that follows a salutation literal). -/
def matchTail (l : List Char) : Option (List Char) :=
  match matchSpaces1 l with
  | none => none
  | some (_, r) => matchCap r

/-- Match a literal at the head of the input, returning the rest. -/
def matchLit : List Char → List Char → Option (List Char)
  | [], l => some l
  | _ :: _, [] => none
  | c :: p, d :: l => if c = d then matchLit p l else none

/-- Regex alternation of literals, each followed by `\s+` and the capture
group, tried in order at one position (Python's leftmost alternative
preference). -/
def altTail : List (List Char) → List Char → Option (List Char)
  | [], _ => none
  | w :: ws, l =>
    match matchLit w l with
    | some r =>
      match matchTail r with
      | some cap => some cap
      | none => altTail ws l
    | none => altTail ws l

/-- Match of `(?:Hi|Hello|Dear|Hey)\s+([A-Z][a-z]+(?:\s+[A-Z][a-z]+)?)` at
one position. -/
def greetPat1 (l : List Char) : Option (List Char) :=
  altTail ["Hi".data, "Hello".data, "Dear".data, "Hey".data] l

/-- Match of
`(?:Good\s+(?:morning|afternoon|evening))\s+([A-Z][a-z]+(?:\s+[A-Z][a-z]+)?)`
at one position. -/
def greetPat2 (l : List Char) : Option (List Char) :=
  match matchLit "Good".data l with
  | none => none
  | some r =>
    match matchSpaces1 r with
    | none => none
    | some (_, r2) =>
        altTail ["morning".data, "afternoon".data, "evening".data] r2

/-- `re.search`: try the position matcher at every start position, leftmost
first. -/
def searchFrom (p : List Char → Option (List Char)) : List Char → Option (List Char)
  | [] => p []
  | c :: t =>
    match p (c :: t) with
    | some r => some r
    | none => searchFrom p t

/-- All start positions (suffixes) that `re.search` tries. -/
def suffixesOf : List Char → List (List Char)
  | [] => [[]]
  | c :: t => (c :: t) :: suffixesOf t

/-- `extract_greeting_name(email_content)` (`GYG.py` lines 51-62): search
the first pattern, then the second, over only the first 500 characters of
the body; return `match.group(1).strip()`. -/
def extract_greeting_name (email_content : List Char) : Option (List Char) :=
  match searchFrom greetPat1 (email_content.take 500) with
  | some cap => some (pyStrip cap)
  | none =>
    match searchFrom greetPat2 (email_content.take 500) with
    | some cap => some (pyStrip cap)
    | none => none

/-- One capitalized word: `[A-Z][a-z]+`. -/
def isCapWord (w : List Char) : Bool :=
  match w with
  | [] => false
  | c :: rest => isUpperAZ c && !rest.isEmpty && rest.all isLowerAZ

/-- The shape of a captured greeting name: one capitalized word, or two
capitalized words joined by whitespace. -/
def CapShape (n : List Char) : Prop :=
  isCapWord n = true ∨
    ∃ w1 ws w2, n = w1 ++ ws ++ w2 ∧ isCapWord w1 = true ∧ ws ≠ [] ∧
      ws.all pyIsSpace = true ∧ isCapWord w2 = true

/-- Convenience constructor: the document binding exactly the listed
fields. -/
def docOf (l : List (Field × Val)) : Doc := fun f =>
  (l.find? (fun p => decide (p.1 = f))).map (fun p => p.2)

/-- A complete, non-amendment candidate: booking reference, name and phone
all present. -/
def pComplete : Doc :=
  docOf [(Field.booking_reference, Val.s "GYG1"),
         (Field.name, Val.s "Maria Lopez"),
         (Field.phoneNumber, Val.s "+1555")]

/-- A candidate whose extracted name coincides with the greeting name. -/
def pGreet : Doc :=
  docOf [(Field.booking_reference, Val.s "GYG2"),
         (Field.name, Val.s "John")]

/-- A raw parse with an uncoercible passenger count. -/
def rawBadCount : Doc :=
  docOf [(Field.booking_reference, Val.s "GYG9"),
         (Field.name, Val.s "Ana Blanco"),
         (Field.totalPassengers, Val.s "two")]

/-- A cancellation candidate. -/
def pCancel : Doc :=
  docOf [(Field.booking_reference, Val.s "GYG4"),
         (Field.is_cancellation, Val.b true)]

/-- A stored record with trusted name and phone. -/
def exStored : Doc :=
  docOf [(Field.booking_reference, Val.s "GYG3"),
         (Field.name, Val.s "Maria Lopez"),
         (Field.phoneNumber, Val.s "+1555"),
         (Field.tourDate, Val.s "March 1, 2026"),
         (Field.vehicleType, Val.s "Unknown"),
         (Field.specialRequirements, Val.s "No"),
         (Field.platform, Val.s "GYG"),
         (Field.createdAt, Val.t 0), (Field.updatedAt, Val.t 0)]

/-- A candidate carrying a single-token name. -/
def ndSingleTok : Doc :=
  docOf [(Field.booking_reference, Val.s "GYG3"),
         (Field.name, Val.s "Bob")]

/-- An amendment candidate changing only the tour date. -/
def ndDateOnly : Doc :=
  docOf [(Field.booking_reference, Val.s "GYG3"),
         (Field.tourDate, Val.s "March 5, 2026")]

/-- A raw parse carrying an empty-string name. -/
def rawEmptyName : Doc :=
  docOf [(Field.booking_reference, Val.s "GYG7"),
         (Field.name, Val.s "")]

/-- A fresh-booking candidate without a vehicle type. -/
def pFresh : Doc :=
  docOf [(Field.booking_reference, Val.s "GYG5"),
         (Field.name, Val.s "Ana Blanco"),
         (Field.phoneNumber, Val.s "+92300"),
         (Field.tourDate, Val.s "March 17, 2026")]

theorem smartMergeStep_eq (ex nd : Doc) (st : Doc × List Field) (f : Field) :
    smartMergeStep ex nd st f =
      if accepts ex nd f = true then (setF st.1 f (nd f), st.2 ++ [f]) else st := by
  unfold smartMergeStep accepts
  by_cases h1 : f ∈ skipFields
  · simp [h1]
  · simp only [if_neg h1]
    cases hnd : nd f with
    | none => simp
    | some v =>
      by_cases h2 : v = Val.s ""
      · simp [h2]
      · simp only [if_neg h2]
        by_cases h3 : f ∈ protectedFields
        · simp only [if_pos h3]
          by_cases h4 : (pyTruthy v && !pyEqVO v (ex f)) = true
          · simp only [if_pos h4]
            by_cases h5 : f = Field.name ∧ numTokens v < 2
            · simp [h5]
            · simp [h5, hnd]
          · simp [h4]
        · simp only [if_neg h3]

theorem foldl_merge_snd (ex nd : Doc) (fs : List Field) :
    ∀ st : Doc × List Field,
      (fs.foldl (smartMergeStep ex nd) st).2 =
        st.2 ++ fs.filter (fun f => accepts ex nd f) := by
  induction fs with
  | nil => intro st; simp
  | cons g fs ih =>
    intro st
    simp only [List.foldl_cons, List.filter_cons]
    rw [ih, smartMergeStep_eq]
    by_cases h : accepts ex nd g = true
    · simp [h, List.append_assoc]
    · simp [h]

theorem foldl_merge_fst (ex nd : Doc) (fs : List Field) :
    ∀ (st : Doc × List Field) (f : Field),
      (fs.foldl (smartMergeStep ex nd) st).1 f =
        if f ∈ fs ∧ accepts ex nd f = true then nd f else st.1 f := by
  induction fs with
  | nil => intro st f; simp
  | cons g fs ih =>
    intro st f
    simp only [List.foldl_cons]
    rw [ih]
    by_cases hmem : f ∈ fs ∧ accepts ex nd f = true
    · rw [if_pos hmem, if_pos ⟨List.mem_cons_of_mem g hmem.1, hmem.2⟩]
    · rw [if_neg hmem, smartMergeStep_eq]
      by_cases hacc : accepts ex nd g = true
      · rw [if_pos hacc]
        by_cases hfg : f = g
        · subst hfg
          simp [setF, hacc]
        · simp only [setF, if_neg hfg]
          rw [if_neg]
          intro hc
          rcases List.mem_cons.mp hc.1 with h | h
          · exact hfg h
          · exact hmem ⟨h, hc.2⟩
      · rw [if_neg hacc, if_neg]
        intro hc
        rcases List.mem_cons.mp hc.1 with h | h
        · exact hacc (h ▸ hc.2)
        · exact hmem ⟨h, hc.2⟩

theorem mem_allFields (f : Field) : f ∈ allFields := by
  cases f <;> simp [allFields]

theorem smart_merge_snd (ex nd : Doc) (g : Option String) (now : Nat) :
    (smart_merge ex nd g now).2 =
      allFields.filter (fun f => accepts ex (filterGreet nd g) f) := by
  unfold smart_merge
  simp only []
  rw [foldl_merge_snd]
  simp

theorem smart_merge_mem (ex nd : Doc) (g : Option String) (now : Nat)
    (f : Field) :
    f ∈ (smart_merge ex nd g now).2 ↔ accepts ex (filterGreet nd g) f = true := by
  rw [smart_merge_snd]
  simp [List.mem_filter, mem_allFields]

theorem smart_merge_fst (ex nd : Doc) (g : Option String) (now : Nat)
    (f : Field) :
    (smart_merge ex nd g now).1 f =
      if f = Field.updatedAt then some (Val.t now)
      else if accepts ex (filterGreet nd g) f = true then (filterGreet nd g) f
      else ex f := by
  unfold smart_merge
  simp only [setF]
  by_cases hf : f = Field.updatedAt
  · simp [hf]
  · rw [if_neg hf, if_neg hf, foldl_merge_fst]
    simp [mem_allFields f]

theorem accepts_of_none (ex nd : Doc) (f : Field) (h : nd f = none) :
    accepts ex nd f = false := by
  unfold accepts
  rw [h]
  split <;> rfl

theorem accepts_name_iff (ex nd : Doc) :
    accepts ex nd Field.name = true ↔
      ∃ v, nd Field.name = some v ∧ v ≠ Val.s "" ∧ pyTruthy v = true ∧
        pyEqVO v (ex Field.name) = false ∧ 2 ≤ numTokens v := by
  unfold accepts
  have h1 : Field.name ∉ skipFields := by decide
  have h2 : Field.name ∈ protectedFields := by decide
  rw [if_neg h1]
  cases hv : nd Field.name with
  | none => simp
  | some v =>
    dsimp only
    rw [if_pos h2]
    by_cases hempty : v = Val.s "" <;>
      by_cases htr : pyTruthy v = true <;>
        by_cases heq : pyEqVO v (ex Field.name) = true <;>
          by_cases htok : numTokens v < 2 <;>
            simp_all [Nat.not_lt]

theorem accepts_phone_iff (ex nd : Doc) :
    accepts ex nd Field.phoneNumber = true ↔
      ∃ v, nd Field.phoneNumber = some v ∧ v ≠ Val.s "" ∧ pyTruthy v = true ∧
        pyEqVO v (ex Field.phoneNumber) = false := by
  unfold accepts
  have h1 : Field.phoneNumber ∉ skipFields := by decide
  have h2 : Field.phoneNumber ∈ protectedFields := by decide
  rw [if_neg h1]
  cases hv : nd Field.phoneNumber with
  | none => simp
  | some v =>
    dsimp only
    rw [if_pos h2]
    by_cases hempty : v = Val.s "" <;>
      by_cases htr : pyTruthy v = true <;>
        by_cases heq : pyEqVO v (ex Field.phoneNumber) = true <;>
          simp_all

theorem filterGreet_phone (nd : Doc) (g : Option String) :
    filterGreet nd g Field.phoneNumber = nd Field.phoneNumber := by
  unfold filterGreet
  split
  · simp [setF]
  · rfl

theorem filterGreet_name_of_match (nd : Doc) (g : Option String)
    (h : greetEq (nd Field.name) g = true) :
    filterGreet nd g Field.name = none := by
  unfold filterGreet
  rw [if_pos h]
  simp [setF]

theorem truthyO_isSome (o : Option Val) (h : truthyO o = true) :
    o.isSome = true := by
  cases o
  · cases h
  · rfl

/-- C10: the merge operates on a copy of the existing record (the embedding
is pure and the existing document is returned unchanged wherever no update
applies), and the merged document agrees with the existing record on every
field not listed in the returned change-set, with the single exception of
`updatedAt`, which is set to the processing instant on every invocation,
even when the change-set is empty. -/
theorem C10_merge_frame (ex nd : Doc) (g : Option String) (now : Nat) :
    (∀ f : Field, f ∉ (smart_merge ex nd g now).2 → f ≠ Field.updatedAt →
      (smart_merge ex nd g now).1 f = ex f) ∧
    (smart_merge ex nd g now).1 Field.updatedAt = some (Val.t now) := by
  constructor
  · intro f hf hne
    rw [smart_merge_fst, if_neg hne, if_neg]
    intro hacc
    exact hf ((smart_merge_mem ex nd g now f).mpr hacc)
  · rw [smart_merge_fst, if_pos rfl]

/-- Witness for C10: a date-only amendment leaves the stored name untouched
and refreshes the timestamp. -/
theorem C10_merge_frame_witness :
    (smart_merge exStored ndDateOnly none 5).1 Field.name = exStored Field.name ∧
    (smart_merge exStored ndDateOnly none 5).1 Field.updatedAt = some (Val.t 5) :=
  ⟨(C10_merge_frame exStored ndDateOnly none 5).1 Field.name (by decide) (by decide),
   (C10_merge_frame exStored ndDateOnly none 5).2⟩

/-- C2 counterexample: a candidate whose extracted name equals the greeting
name, arriving when no record exists, is inserted by the Create path with
that name intact — the greeting filter runs only inside `smart_merge`, so
the created record's name equals the greeting name, contradicting the
claim. -/
theorem C2_create_keeps_greeting_name :
    isCreate (processParsed [] pGreet false (some "John") 0).2 = true ∧
    (processParsed [] pGreet false (some "John") 0).1.map
      (fun d => d Field.name) = [some (Val.s "John")] := by
  constructor <;> rfl

/-- C2 (amended): greeting suppression holds in merge mode only — when the
candidate name equals the greeting name, the merge discards it, so the
merged record keeps the stored name and `name` is excluded from the
change-set; the Create path (`build_doc`) applies no greeting filter and
copies the candidate name verbatim. -/
theorem C2_merge_greeting_suppression :
    (∀ (ex nd : Doc) (g : Option String) (now : Nat),
      greetEq (nd Field.name) g = true →
        Field.name ∉ (smart_merge ex nd g now).2 ∧
        (smart_merge ex nd g now).1 Field.name = ex Field.name) ∧
    (∀ (data : Doc) (now : Nat),
      build_doc data now Field.name = data Field.name) := by
  constructor
  · intro ex nd g now h
    have hnone : filterGreet nd g Field.name = none :=
      filterGreet_name_of_match nd g h
    have hacc : accepts ex (filterGreet nd g) Field.name = false :=
      accepts_of_none _ _ _ hnone
    constructor
    · intro hmem
      rw [smart_merge_mem, hacc] at hmem
      cases hmem
    · rw [smart_merge_fst, if_neg (by decide), hacc]
      simp
  · intro data now
    rfl

/-- Witness for the amended C2 at a concrete merge. -/
theorem C2_merge_greeting_suppression_witness :
    Field.name ∉ (smart_merge exStored pGreet (some "John") 7).2 ∧
    (smart_merge exStored pGreet (some "John") 7).1 Field.name =
      exStored Field.name :=
  C2_merge_greeting_suppression.1 exStored pGreet (some "John") 7 (by decide)

/-- C5: in merge mode a protected field enters the change-set exactly when
the (greeting-filtered) candidate value is present, non-empty, truthy and
differs from the stored value, and for `name` additionally has at least two
whitespace-separated tokens; a single-token candidate name is rejected and
the stored name is kept. -/
theorem C5_protected_fields (ex nd : Doc) (g : Option String) (now : Nat) :
    (Field.name ∈ (smart_merge ex nd g now).2 ↔
      ∃ v, filterGreet nd g Field.name = some v ∧ v ≠ Val.s "" ∧
        pyTruthy v = true ∧ pyEqVO v (ex Field.name) = false ∧
        2 ≤ numTokens v) ∧
    (Field.phoneNumber ∈ (smart_merge ex nd g now).2 ↔
      ∃ v, nd Field.phoneNumber = some v ∧ v ≠ Val.s "" ∧
        pyTruthy v = true ∧ pyEqVO v (ex Field.phoneNumber) = false) ∧
    (∀ v, filterGreet nd g Field.name = some v → numTokens v < 2 →
      Field.name ∉ (smart_merge ex nd g now).2 ∧
      (smart_merge ex nd g now).1 Field.name = ex Field.name) := by
  refine ⟨?_, ?_, ?_⟩
  · rw [smart_merge_mem, accepts_name_iff]
  · rw [smart_merge_mem, accepts_phone_iff]
    simp only [filterGreet_phone]
  · intro v hv htok
    have hacc : accepts ex (filterGreet nd g) Field.name = false := by
      cases h : accepts ex (filterGreet nd g) Field.name
      · rfl
      · exfalso
        rcases (accepts_name_iff _ _).mp h with ⟨w, hw, _, _, _, hge⟩
        rw [hv] at hw
        injection hw with hwv
        subst hwv
        omega
    constructor
    · intro hmem
      rw [smart_merge_mem, hacc] at hmem
      cases hmem
    · rw [smart_merge_fst, if_neg (by decide), hacc]
      simp

/-- Witness for C5: the single-token candidate name "Bob" is rejected. -/
theorem C5_protected_fields_witness :
    Field.name ∉ (smart_merge exStored ndSingleTok none 3).2 ∧
    (smart_merge exStored ndSingleTok none 3).1 Field.name =
      exStored Field.name :=
  (C5_protected_fields exStored ndSingleTok none 3).2.2 (Val.s "Bob")
    (by decide) (by decide)

/-- C6: once the stored record has a name and a phone number, no merge can
null them — the merged document keeps them present, and they change only to
a value that differs from the stored one (for `name` additionally a
multi-token, non-empty value). -/
theorem C6_protected_monotonic (ex nd : Doc) (g : Option String) (now : Nat)
    (hn : (ex Field.name).isSome = true)
    (hp : (ex Field.phoneNumber).isSome = true) :
    ((smart_merge ex nd g now).1 Field.name).isSome = true ∧
    ((smart_merge ex nd g now).1 Field.phoneNumber).isSome = true ∧
    ((smart_merge ex nd g now).1 Field.name = ex Field.name ∨
      ∃ v, (smart_merge ex nd g now).1 Field.name = some v ∧
        pyEqVO v (ex Field.name) = false ∧ 2 ≤ numTokens v ∧ v ≠ Val.s "") ∧
    ((smart_merge ex nd g now).1 Field.phoneNumber = ex Field.phoneNumber ∨
      ∃ v, (smart_merge ex nd g now).1 Field.phoneNumber = some v ∧
        pyEqVO v (ex Field.phoneNumber) = false ∧ v ≠ Val.s "") := by
  have Hn : (smart_merge ex nd g now).1 Field.name = ex Field.name ∨
      ∃ v, (smart_merge ex nd g now).1 Field.name = some v ∧
        pyEqVO v (ex Field.name) = false ∧ 2 ≤ numTokens v ∧ v ≠ Val.s "" := by
    rw [smart_merge_fst, if_neg (by decide)]
    by_cases hacc : accepts ex (filterGreet nd g) Field.name = true
    · right
      rcases (accepts_name_iff _ _).mp hacc with ⟨v, hv, hne, _, heqf, hge⟩
      rw [if_pos hacc, hv]
      exact ⟨v, rfl, heqf, hge, hne⟩
    · left
      rw [if_neg hacc]
  have Hp : (smart_merge ex nd g now).1 Field.phoneNumber = ex Field.phoneNumber ∨
      ∃ v, (smart_merge ex nd g now).1 Field.phoneNumber = some v ∧
        pyEqVO v (ex Field.phoneNumber) = false ∧ v ≠ Val.s "" := by
    rw [smart_merge_fst, if_neg (by decide)]
    by_cases hacc : accepts ex (filterGreet nd g) Field.phoneNumber = true
    · right
      rcases (accepts_phone_iff _ _).mp hacc with ⟨v, hv, hne, _, heqf⟩
      rw [if_pos hacc, hv]
      exact ⟨v, rfl, heqf, hne⟩
    · left
      rw [if_neg hacc]
  refine ⟨?_, ?_, Hn, Hp⟩
  · rcases Hn with h | ⟨v, hv, _⟩
    · rw [h]; exact hn
    · rw [hv]; rfl
  · rcases Hp with h | ⟨v, hv, _⟩
    · rw [h]; exact hp
    · rw [hv]; rfl

/-- Witness for C6 at a concrete merge. -/
theorem C6_protected_monotonic_witness :
    ((smart_merge exStored ndDateOnly none 4).1 Field.name).isSome = true ∧
    ((smart_merge exStored ndDateOnly none 4).1 Field.phoneNumber).isSome = true :=
  ⟨(C6_protected_monotonic exStored ndDateOnly none 4 (by decide) (by decide)).1,
   (C6_protected_monotonic exStored ndDateOnly none 4 (by decide) (by decide)).2.1⟩

theorem deleteFirst_len_le (ref : Val) (l : List Doc) :
    (deleteFirst ref l).length ≤ l.length := by
  induction l with
  | nil => exact Nat.le_refl 0
  | cons d t ih =>
    unfold deleteFirst
    split
    · exact Nat.le_succ t.length
    · exact Nat.succ_le_succ ih

theorem accepts_of_empty (ex nd : Doc) (f : Field)
    (h : nd f = some (Val.s "")) : accepts ex nd f = false := by
  unfold accepts
  rw [h]
  by_cases h1 : f ∈ skipFields
  · rw [if_pos h1]
  · rw [if_neg h1]
    dsimp only
    rw [if_pos rfl]

theorem filterGreet_id (nd : Doc) (g : Option String)
    (h : ¬greetEq (nd Field.name) g = true) : filterGreet nd g = nd := by
  unfold filterGreet
  rw [if_neg h]

theorem cleanRef_eq (raw p : Doc) (h : cleanRef raw = some p) (f : Field)
    (hf : f ≠ Field.booking_reference) : p f = raw f := by
  unfold cleanRef at h
  split at h
  · split at h
    · injection h with h'
      subst h'
      simp [setF, hf]
    · cases h
  · injection h with h'
    subst h'
    rfl

theorem normalize_g4f_eq (raw d : Doc) (h : normalize_g4f raw = some d)
    (f : Field) (hbr : f ≠ Field.booking_reference)
    (htp : f ≠ Field.totalPassengers) : d f = raw f := by
  unfold normalize_g4f at h
  cases hcr : cleanRef raw with
  | none => rw [hcr] at h; cases h
  | some p =>
    rw [hcr] at h
    dsimp only at h
    have hp : p f = raw f := cleanRef_eq raw p hcr f hbr
    split at h
    · split at h
      · split at h
        · injection h with h'; subst h'; simp [setF, htp, hp]
        · injection h with h'; subst h'; simp [setF, htp, hp]
      · injection h with h'; subst h'; exact hp
    · injection h with h'; subst h'; exact hp

/-- C4: for a cancellation candidate the decision is never a Create and the
store never grows; with a truthy reference, a matching record yields the
delete of exactly that record, and a missing record yields the reported
unmatched-cancellation no-op with the store unchanged. -/
theorem C4_cancellation (store : List Doc) (parsed : Doc) (am : Bool)
    (g : Option String) (now : Nat)
    (hc : truthyO (parsed Field.is_cancellation) = true) :
    (∀ d : Doc, (processParsed store parsed am g now).2 ≠ Decision.create d) ∧
    (processParsed store parsed am g now).1.length ≤ store.length ∧
    (∀ ref : Val, parsed Field.booking_reference = some ref →
      pyTruthy ref = true →
      (∀ ex : Doc, find_one ref store = some ex →
        processParsed store parsed am g now =
          (deleteFirst ref store, Decision.cancelDelete ex)) ∧
      (find_one ref store = none →
        processParsed store parsed am g now =
          (store, Decision.cancelUnmatched ref))) := by
  cases hbr : parsed Field.booking_reference with
  | none =>
    have hEq : processParsed store parsed am g now =
        (store, Decision.cancelNoRef) := by
      unfold processParsed
      rw [if_pos hc, hbr]
    refine ⟨?_, ?_, ?_⟩
    · intro d h
      rw [hEq] at h
      cases h
    · rw [hEq]
    · intro ref href
      cases href
  | some r =>
    by_cases htr : pyTruthy r = true
    · cases hfo : find_one r store with
      | some ex0 =>
        have hEq : processParsed store parsed am g now =
            (deleteFirst r store, Decision.cancelDelete ex0) := by
          unfold processParsed
          rw [if_pos hc, hbr]
          dsimp only
          rw [if_pos htr, hfo]
        refine ⟨?_, ?_, ?_⟩
        · intro d h
          rw [hEq] at h
          cases h
        · rw [hEq]
          exact deleteFirst_len_le r store
        · intro ref href hrtr
          injection href with he
          subst he
          constructor
          · intro ex hex
            rw [hfo] at hex
            injection hex with he2
            subst he2
            exact hEq
          · intro hnone
            rw [hfo] at hnone
            cases hnone
      | none =>
        have hEq : processParsed store parsed am g now =
            (store, Decision.cancelUnmatched r) := by
          unfold processParsed
          rw [if_pos hc, hbr]
          dsimp only
          rw [if_pos htr, hfo]
        refine ⟨?_, ?_, ?_⟩
        · intro d h
          rw [hEq] at h
          cases h
        · rw [hEq]
        · intro ref href hrtr
          injection href with he
          subst he
          constructor
          · intro ex hex
            rw [hfo] at hex
            cases hex
          · intro _
            exact hEq
    · have hEq : processParsed store parsed am g now =
          (store, Decision.cancelNoRef) := by
        unfold processParsed
        rw [if_pos hc, hbr]
        dsimp only
        rw [if_neg htr]
      refine ⟨?_, ?_, ?_⟩
      · intro d h
        rw [hEq] at h
        cases h
      · rw [hEq]
      · intro ref href hrtr
        injection href with he
        subst he
        exact absurd hrtr htr

/-- Witness for C4: an unmatched cancellation against an empty store is a
no-op reported as unmatched, not an error and not a create. -/
theorem C4_cancellation_witness :
    processParsed [] pCancel false none 0 =
      ([], Decision.cancelUnmatched (Val.s "GYG4")) := by
  have h := C4_cancellation [] pCancel false none 0 (by decide)
  exact (h.2.2 (Val.s "GYG4") (by decide) (by decide)).2 rfl

/-- C8: every Create decision inserts exactly the document built from the
candidate: the listed fields copied verbatim, `vehicleType` defaulted to
the "Unknown" sentinel (never absent), `specialRequirements` and `platform`
fixed literals, `createdAt` and `updatedAt` the processing instant. -/
theorem C8_create_build (store st' : List Doc) (parsed : Doc) (am : Bool)
    (g : Option String) (now : Nat) (d : Doc)
    (h : processParsed store parsed am g now = (st', Decision.create d)) :
    d Field.name = parsed Field.name ∧
    d Field.phoneNumber = parsed Field.phoneNumber ∧
    d Field.address = parsed Field.address ∧
    d Field.tour = parsed Field.tour ∧
    d Field.tourDate = parsed Field.tourDate ∧
    d Field.tourTime = parsed Field.tourTime ∧
    d Field.totalPassengers = parsed Field.totalPassengers ∧
    d Field.booking_reference = parsed Field.booking_reference ∧
    d Field.vehicleType = (if truthyO (parsed Field.vehicleType)
      then parsed Field.vehicleType else some (Val.s "Unknown")) ∧
    (d Field.vehicleType).isSome = true ∧
    d Field.specialRequirements = some (Val.s "No") ∧
    d Field.platform = some (Val.s "GYG") ∧
    d Field.createdAt = some (Val.t now) ∧
    d Field.updatedAt = some (Val.t now) ∧
    st' = store ++ [d] := by
  have hvt : ∀ data : Doc,
      ((if truthyO (data Field.vehicleType) then data Field.vehicleType
        else some (Val.s "Unknown"))).isSome = true := by
    intro data
    by_cases htr : truthyO (data Field.vehicleType) = true
    · rw [if_pos htr]
      exact truthyO_isSome _ htr
    · rw [if_neg htr]
      rfl
  unfold processParsed at h
  split at h
  · split at h
    · split at h
      · split at h
        · simp at h
        · simp at h
      · simp at h
    · simp at h
  · split at h
    · split at h
      · split at h
        · split at h
          · split at h
            · simp at h
            · simp at h
          · simp only [Prod.mk.injEq, Decision.create.injEq] at h
            obtain ⟨h1, h2⟩ := h
            subst h2
            refine ⟨rfl, rfl, rfl, rfl, rfl, rfl, rfl, rfl, rfl, ?_, rfl, rfl,
              ?_, rfl, h1.symm⟩
            · exact hvt parsed
            · simp [setF]
        · simp only [Prod.mk.injEq, Decision.create.injEq] at h
          obtain ⟨h1, h2⟩ := h
          subst h2
          refine ⟨rfl, rfl, rfl, rfl, rfl, rfl, rfl, rfl, rfl, ?_, rfl, rfl,
            ?_, rfl, h1.symm⟩
          · exact hvt parsed
          · simp [setF]
      · simp at h
    · simp at h

/-- Witness for C8 at a concrete fresh booking. -/
theorem C8_create_build_witness :
    (setF (build_doc pFresh 7) Field.createdAt (some (Val.t 7)))
        Field.platform = some (Val.s "GYG") ∧
    ((setF (build_doc pFresh 7) Field.createdAt (some (Val.t 7)))
        Field.vehicleType).isSome = true := by
  obtain ⟨h1, h2, h3, h4, h5, h6, h7, h8, h9, h10, h11, h12, h13, h14, h15⟩ :=
    C8_create_build []
      ([] ++ [setF (build_doc pFresh 7) Field.createdAt (some (Val.t 7))])
      pFresh false none 7
      (setF (build_doc pFresh 7) Field.createdAt (some (Val.t 7))) rfl
  exact ⟨h12, h10⟩

/-- C1 (code defect): replaying the same complete, non-amendment candidate
yields Create twice — the second pass bypasses merge mode because the gate
additionally requires the amendment flag or a missing name/phone, and the
store ends up with two documents carrying the same booking reference. -/
theorem C1_replay_duplicate_insert :
    isCreate (processParsed [] pComplete false none 0).2 = true ∧
    isCreate (processParsed (processParsed [] pComplete false none 0).1
      pComplete false none 1).2 = true ∧
    (processParsed (processParsed [] pComplete false none 0).1
      pComplete false none 1).1.map (fun d => d Field.booking_reference) =
      [some (Val.s "GYG1"), some (Val.s "GYG1")] := by
  refine ⟨rfl, rfl, ?_⟩
  decide

/-- C3 (code defect): the same uncoercible passenger count is mapped to an
absent field by the g4f cleanup (parse succeeds, remaining fields intact)
but makes the whole HuggingFace parse fail. -/
theorem C3_hf_malformed_count_fails :
    normalize_hf rawBadCount = none ∧
    (normalize_g4f rawBadCount).map (fun d => d Field.totalPassengers) =
      some none ∧
    (normalize_g4f rawBadCount).map (fun d => d Field.name) =
      some (some (Val.s "Ana Blanco")) ∧
    (normalize_g4f rawBadCount).map (fun d => d Field.booking_reference) =
      some (some (Val.s "GYG9")) := by
  refine ⟨rfl, ?_, ?_, ?_⟩ <;> decide

/-- C7 counterexample: an empty-string name survives normalization (it is
not mapped to absent) and is persisted verbatim by the Create path. -/
theorem C7_empty_string_persisted :
    (normalize_g4f rawEmptyName).map (fun d => d Field.name) =
      some (some (Val.s "")) ∧
    (processParsed [] rawEmptyName false none 0).1.map
      (fun d => d Field.name) = [some (Val.s "")] := by
  constructor <;> decide

/-- C7 (amended): normalization is exception-free in the embedding and
touches only the reference and the passenger count: a null field stays
absent, but an empty-string field passes through normalization and
`build_doc` unchanged and can be persisted by a Create; only the merge path
skips empty-string candidate values. -/
theorem C7_empty_string_passthrough :
    (∀ (raw d : Doc) (f : Field), normalize_g4f raw = some d →
      f ≠ Field.booking_reference → f ≠ Field.totalPassengers →
      d f = raw f) ∧
    (∀ (data : Doc) (now : Nat),
      build_doc data now Field.name = data Field.name) ∧
    (∀ (ex nd : Doc) (g : Option String) (now : Nat),
      nd Field.name = some (Val.s "") →
      Field.name ∉ (smart_merge ex nd g now).2) := by
  refine ⟨?_, ?_, ?_⟩
  · intro raw d f h hbr htp
    exact normalize_g4f_eq raw d h f hbr htp
  · intro data now
    rfl
  · intro ex nd g now hname hmem
    rw [smart_merge_mem] at hmem
    by_cases hg : greetEq (nd Field.name) g = true
    · rw [accepts_of_none ex _ Field.name
        (filterGreet_name_of_match nd g hg)] at hmem
      cases hmem
    · rw [filterGreet_id nd g hg, accepts_of_empty ex nd Field.name hname] at hmem
      cases hmem

/-- Witness for the amended C7: an empty-string candidate name is skipped
by a concrete merge. -/
theorem C7_empty_string_passthrough_witness :
    Field.name ∉ (smart_merge exStored rawEmptyName none 2).2 :=
  C7_empty_string_passthrough.2.2 exStored rawEmptyName none 2 (by decide)

theorem upper_not_space (c : Char) (h : isUpperAZ c = true) :
    pyIsSpace c = false := by
  have hn : 65 ≤ c.toNat ∧ c.toNat ≤ 90 := by
    simpa [isUpperAZ] using h
  simp [pyIsSpace]
  omega

theorem lower_not_space (c : Char) (h : isLowerAZ c = true) :
    pyIsSpace c = false := by
  have hn : 97 ≤ c.toNat ∧ c.toNat ≤ 122 := by
    simpa [isLowerAZ] using h
  simp [pyIsSpace]
  omega

theorem all_takeWhile (p : Char → Bool) (l : List Char) :
    (l.takeWhile p).all p = true := by
  induction l with
  | nil => rfl
  | cons c t ih =>
    by_cases hp : p c = true
    · simp [List.takeWhile_cons, hp, ih]
    · simp [List.takeWhile_cons, hp]

theorem isCapWord_parts (w : List Char) (h : isCapWord w = true) :
    ∃ c rest, w = c :: rest ∧ isUpperAZ c = true ∧ rest ≠ [] ∧
      rest.all isLowerAZ = true := by
  cases w with
  | nil => cases h
  | cons c rest =>
    unfold isCapWord at h
    simp only [Bool.and_eq_true] at h
    obtain ⟨⟨h1, h2⟩, h3⟩ := h
    refine ⟨c, rest, rfl, h1, ?_, h3⟩
    cases rest
    · cases h2
    · intro hx
      cases hx

theorem isCapWord_revhead (w : List Char) (h : isCapWord w = true) :
    ∃ d u, w.reverse = d :: u ∧ isLowerAZ d = true := by
  obtain ⟨c, rest, rfl, _, h2, h3⟩ := isCapWord_parts w h
  cases hrev : rest.reverse with
  | nil => exact absurd (List.reverse_eq_nil_iff.mp hrev) h2
  | cons d u =>
    refine ⟨d, u ++ [c], ?_, ?_⟩
    · rw [List.reverse_cons, hrev]
      rfl
    · have hd : d ∈ rest := by
        rw [← List.mem_reverse, hrev]
        exact List.mem_cons_self d u
      exact (List.all_eq_true.mp h3) d hd

theorem capShape_head (n : List Char) (h : CapShape n) :
    ∃ c t, n = c :: t ∧ pyIsSpace c = false := by
  rcases h with hw | ⟨w1, ws, w2, rfl, h1, _, _, _⟩
  · obtain ⟨c, rest, rfl, hc, _, _⟩ := isCapWord_parts _ hw
    exact ⟨c, rest, rfl, upper_not_space c hc⟩
  · obtain ⟨c, rest, hw1, hc, _, _⟩ := isCapWord_parts w1 h1
    refine ⟨c, rest ++ ws ++ w2, ?_, upper_not_space c hc⟩
    rw [hw1]
    rfl

theorem capShape_revhead (n : List Char) (h : CapShape n) :
    ∃ d u, n.reverse = d :: u ∧ pyIsSpace d = false := by
  rcases h with hw | ⟨w1, ws, w2, rfl, _, _, _, h4⟩
  · obtain ⟨d, u, hdu, hd⟩ := isCapWord_revhead n hw
    exact ⟨d, u, hdu, lower_not_space d hd⟩
  · obtain ⟨d, u, hdu, hd⟩ := isCapWord_revhead w2 h4
    refine ⟨d, u ++ (w1 ++ ws).reverse, ?_, lower_not_space d hd⟩
    rw [List.reverse_append, hdu]
    rfl

theorem pyStrip_capShape (n : List Char) (h : CapShape n) : pyStrip n = n := by
  unfold pyStrip
  obtain ⟨c, t, hct, hc⟩ := capShape_head n h
  have h1 : n.dropWhile pyIsSpace = n := by
    rw [hct]
    simp [List.dropWhile_cons, hc]
  rw [h1]
  obtain ⟨d, u, hdu, hd⟩ := capShape_revhead n h
  rw [hdu]
  simp only [List.dropWhile_cons, hd, Bool.false_eq_true, if_false]
  rw [← hdu]
  exact List.reverse_reverse n

theorem matchWord_shape (l w r : List Char)
    (h : matchWord l = some (w, r)) : isCapWord w = true := by
  cases l with
  | nil => cases h
  | cons c t =>
    unfold matchWord at h
    dsimp only at h
    by_cases hc : isUpperAZ c = true
    · rw [if_pos hc] at h
      by_cases he : (t.takeWhile isLowerAZ).isEmpty = true
      · rw [if_pos he] at h
        cases h
      · rw [if_neg he] at h
        injection h with h'
        have hw : c :: t.takeWhile isLowerAZ = w := congrArg Prod.fst h'
        subst hw
        unfold isCapWord
        dsimp only
        rw [hc]
        have he' : (t.takeWhile isLowerAZ).isEmpty = false := by
          cases hx : (t.takeWhile isLowerAZ).isEmpty
          · rfl
          · exact absurd hx he
        rw [he']
        simp [all_takeWhile]
    · rw [if_neg hc] at h
      cases h

theorem matchSpaces1_shape (l ws r : List Char)
    (h : matchSpaces1 l = some (ws, r)) :
    ws ≠ [] ∧ ws.all pyIsSpace = true := by
  unfold matchSpaces1 at h
  by_cases he : (l.takeWhile pyIsSpace).isEmpty = true
  · rw [if_pos he] at h
    cases h
  · rw [if_neg he] at h
    injection h with h'
    have hw : ws = l.takeWhile pyIsSpace := (congrArg Prod.fst h').symm
    subst hw
    constructor
    · intro hx
      rw [hx] at he
      exact he rfl
    · exact all_takeWhile pyIsSpace l

theorem matchCap_shape (l cap : List Char) (h : matchCap l = some cap) :
    CapShape cap := by
  unfold matchCap at h
  cases hw : matchWord l with
  | none => rw [hw] at h; cases h
  | some pr =>
    obtain ⟨w1, r1⟩ := pr
    rw [hw] at h
    dsimp only at h
    have hcap1 := matchWord_shape l w1 r1 hw
    cases hs : matchSpaces1 r1 with
    | none =>
      rw [hs] at h
      injection h with h'
      subst h'
      exact Or.inl hcap1
    | some pr2 =>
      obtain ⟨ws, r2⟩ := pr2
      rw [hs] at h
      dsimp only at h
      cases hw2 : matchWord r2 with
      | none =>
        rw [hw2] at h
        injection h with h'
        subst h'
        exact Or.inl hcap1
      | some pr3 =>
        obtain ⟨w2, r3⟩ := pr3
        rw [hw2] at h
        injection h with h'
        subst h'
        obtain ⟨hne, hall⟩ := matchSpaces1_shape r1 ws r2 hs
        exact Or.inr ⟨w1, ws, w2, rfl, hcap1, hne, hall,
          matchWord_shape r2 w2 r3 hw2⟩

theorem matchTail_shape (l cap : List Char) (h : matchTail l = some cap) :
    CapShape cap := by
  unfold matchTail at h
  cases hs : matchSpaces1 l with
  | none => rw [hs] at h; cases h
  | some pr =>
    obtain ⟨ws, r⟩ := pr
    rw [hs] at h
    exact matchCap_shape r cap h

theorem altTail_shape (lits : List (List Char)) :
    ∀ l cap : List Char, altTail lits l = some cap → CapShape cap := by
  induction lits with
  | nil => intro l cap h; cases h
  | cons w ws ih =>
    intro l cap h
    unfold altTail at h
    cases hml : matchLit w l with
    | none =>
      rw [hml] at h
      exact ih l cap h
    | some r =>
      rw [hml] at h
      dsimp only at h
      cases hmt : matchTail r with
      | none =>
        rw [hmt] at h
        exact ih l cap h
      | some c2 =>
        rw [hmt] at h
        injection h with h'
        subst h'
        exact matchTail_shape r _ hmt

theorem greetPat1_shape (l cap : List Char) (h : greetPat1 l = some cap) :
    CapShape cap :=
  altTail_shape _ l cap h

theorem greetPat2_shape (l cap : List Char) (h : greetPat2 l = some cap) :
    CapShape cap := by
  unfold greetPat2 at h
  cases hml : matchLit "Good".data l with
  | none => rw [hml] at h; cases h
  | some r =>
    rw [hml] at h
    dsimp only at h
    cases hs : matchSpaces1 r with
    | none => rw [hs] at h; cases h
    | some pr =>
      obtain ⟨ws, r2⟩ := pr
      rw [hs] at h
      exact altTail_shape _ r2 cap h

theorem searchFrom_shape (p : List Char → Option (List Char))
    (hp : ∀ l cap, p l = some cap → CapShape cap) :
    ∀ l cap, searchFrom p l = some cap → CapShape cap := by
  intro l
  induction l with
  | nil => intro cap h; exact hp [] cap h
  | cons c t ih =>
    intro cap h
    unfold searchFrom at h
    cases hc : p (c :: t) with
    | some r =>
      rw [hc] at h
      injection h with h'
      subst h'
      exact hp _ _ hc
    | none =>
      rw [hc] at h
      exact ih cap h

theorem searchFrom_eq_none (p : List Char → Option (List Char)) :
    ∀ l, searchFrom p l = none ↔ ∀ t ∈ suffixesOf l, p t = none := by
  intro l
  induction l with
  | nil =>
    constructor
    · intro h t ht
      simp only [suffixesOf, List.mem_singleton] at ht
      subst ht
      exact h
    · intro h
      exact h [] (by simp [suffixesOf])
  | cons c t ih =>
    constructor
    · intro h t' ht'
      have hc : p (c :: t) = none := by
        unfold searchFrom at h
        cases hp : p (c :: t)
        · rfl
        · rw [hp] at h; cases h
      simp only [suffixesOf, List.mem_cons] at ht'
      rcases ht' with heq | hmem
      · rw [heq]; exact hc
      · have ht : searchFrom p t = none := by
          unfold searchFrom at h
          rw [hc] at h
          exact h
        exact (ih.mp ht) t' hmem
    · intro h
      have hc : p (c :: t) = none :=
        h (c :: t) (by simp [suffixesOf])
      unfold searchFrom
      rw [hc]
      exact ih.mpr (fun t' ht' =>
        h t' (by simp only [suffixesOf, List.mem_cons]; exact Or.inr ht'))

theorem extract_shape (s n : List Char)
    (h : extract_greeting_name s = some n) : CapShape n := by
  unfold extract_greeting_name at h
  cases h1 : searchFrom greetPat1 (s.take 500) with
  | some cap =>
    rw [h1] at h
    injection h with h'
    subst h'
    have hc := searchFrom_shape greetPat1 greetPat1_shape _ cap h1
    rw [pyStrip_capShape cap hc]
    exact hc
  | none =>
    rw [h1] at h
    dsimp only at h
    cases h2 : searchFrom greetPat2 (s.take 500) with
    | some cap =>
      rw [h2] at h
      injection h with h'
      subst h'
      have hc := searchFrom_shape greetPat2 greetPat2_shape _ cap h2
      rw [pyStrip_capShape cap hc]
      exact hc
    | none =>
      rw [h2] at h
      cases h

theorem extract_take (s : List Char) :
    extract_greeting_name s = extract_greeting_name (s.take 500) := by
  unfold extract_greeting_name
  rw [List.take_take, min_self]

theorem extract_none_iff (s : List Char) :
    extract_greeting_name s = none ↔
      ∀ t ∈ suffixesOf (s.take 500),
        greetPat1 t = none ∧ greetPat2 t = none := by
  unfold extract_greeting_name
  cases h1 : searchFrom greetPat1 (s.take 500) with
  | some cap =>
    constructor
    · intro h; cases h
    · intro h
      exfalso
      have hn := (searchFrom_eq_none greetPat1 (s.take 500)).mpr
        (fun t ht => (h t ht).1)
      rw [h1] at hn
      cases hn
  | none =>
    cases h2 : searchFrom greetPat2 (s.take 500) with
    | some cap =>
      constructor
      · intro h; cases h
      · intro h
        exfalso
        have hn := (searchFrom_eq_none greetPat2 (s.take 500)).mpr
          (fun t ht => (h t ht).2)
        rw [h2] at hn
        cases hn
    | none =>
      constructor
      · intro _ t ht
        exact ⟨(searchFrom_eq_none greetPat1 _).mp h1 t ht,
               (searchFrom_eq_none greetPat2 _).mp h2 t ht⟩
      · intro _
        rfl

/-- C9: the greeting-name extraction depends only on the first 500
characters of the body (it equals its own restriction to that prefix);
every returned name has the captured shape — one capitalized word or two
capitalized words joined by whitespace, as matched after a salutation word
by the two greeting patterns — and the result is `none` exactly when
neither pattern matches at any position of that prefix. -/
theorem C9_greeting_extraction (s : List Char) :
    extract_greeting_name s = extract_greeting_name (s.take 500) ∧
    (∀ n, extract_greeting_name s = some n → CapShape n) ∧
    (extract_greeting_name s = none ↔
      ∀ t ∈ suffixesOf (s.take 500),
        greetPat1 t = none ∧ greetPat2 t = none) :=
  ⟨extract_take s, fun n h => extract_shape s n h, extract_none_iff s⟩

/-- Witness for C9: the name extracted from a concrete greeting has the
captured one-or-two-capitalized-word shape. -/
theorem C9_greeting_extraction_witness : CapShape ("John Smith".data) :=
  (C9_greeting_extraction ("Hi John Smith, here".data)).2.1
    ("John Smith".data) (by decide)

end GYG
